import Mathlib

/-!
# Verification of the buffer / diff / render-loop core of `tui-screen-savers-rs`

This file is a shallow embedding, in Lean 4, of the parts of the repository
that the specification talks about:

* `src/buffer.rs` — `Cell`, `Buffer`, and `Buffer::diff`;
* `src/blank/effect.rs` — the `Blank` effect;
* `src/rain/rain_drop.rs`, `src/rain/gradient.rs`, `src/rain/draw.rs`,
  `src/rain/digital_rain.rs` — the digital-rain effect;
* `src/maze/effect.rs` — the `Maze` effect;
* `src/common.rs` — the `run_loop` driver.

Modelling conventions:

* Rust `usize`/`u16`/`u8` become `Nat`; wrap-around or saturation is written
  out explicitly (`% 256`, `min`, `max`) at each `as` cast that can clip.
* `f32`/`f64` values (drop positions, fps) are modelled as exact rationals
  `ℚ`; `f32::round` (half away from zero) is modelled by the executable
  `ratRound` below.
* The thread-local generator `rand::rng()` / `ThreadRng` is modelled as a
  stream of natural-number draws, `List Nat`, threaded through every
  operation exactly in source order.  `Rng::random_range(0..n)` consumes one
  draw `v` and yields `v % n`; an inclusive range `lo..=hi` yields
  `lo + v % (hi - lo + 1)` and *panics* (models as `none`) when the range is
  empty, exactly as the `rand` crate does.  An exhausted stream yields the
  lower bound; streams are always chosen long enough that this case is not
  reached by the executions studied.
* A Rust method that can panic on the paths studied is embedded as an
  `Option`-returning function, `none` modelling the panic.
* `Vec` becomes `List`; `Vec` indexing inside the loops studied is always
  in bounds, and is embedded with `getD`/`List.set` (out-of-range reads and
  writes cannot occur on the executions covered by the theorems below).
-/

/-! ## `src/buffer.rs`: `Cell` and `Buffer` -/

/-- The subset of `crossterm::style::Color` constructors used by the
program.  `Rgb` components are `u8`, produced below already reduced
mod 256. -/
inductive Color where
  | Black
  | White
  | Green
  | DarkGreen
  | Grey
  | DarkGrey
  | Rgb (r g b : Nat)
deriving DecidableEq, Repr

/-- The subset of `crossterm::style::Attribute` constructors used by the
program. -/
inductive Attr where
  | Reset
  | Bold
  | NormalIntensity
deriving DecidableEq, Repr

/-- `Cell` from `src/buffer.rs`: a glyph, a color and a display attribute. -/
structure Cell where
  symbol : Char
  color : Color
  attr : Attr
deriving DecidableEq, Repr

/-- `Cell::new`. -/
def Cell.new (symbol : Char) (color : Color) (attr : Attr) : Cell :=
  ⟨symbol, color, attr⟩

/-- `impl Default for Cell`: blank space, black color, reset attribute. -/
def Cell.default : Cell :=
  ⟨' ', Color.Black, Attr.Reset⟩

/-- `Buffer` from `src/buffer.rs`: a `width × height` grid stored as a flat
vector of cells. -/
structure Buffer where
  width : Nat
  height : Nat
  buffer : List Cell
deriving DecidableEq, Repr

/-- `Buffer::new` (release semantics): a buffer of `width * height` default
cells. -/
def Buffer.new (width height : Nat) : Buffer :=
  ⟨width, height, List.replicate (width * height) Cell.default⟩

/-- `Buffer::new` with its `debug_assert!(width > 0 && height > 0)`
modelled as a guard: `none` models the debug-mode panic for a zero
dimension. -/
def Buffer.new? (width height : Nat) : Option Buffer :=
  if 0 < width ∧ 0 < height then some (Buffer.new width height) else none

/-- `Buffer::fill_with`: overwrite every cell with the given value. -/
def Buffer.fill_with (b : Buffer) (cell : Cell) : Buffer :=
  { b with buffer := b.buffer.map fun _ => cell }

/-- `Buffer::get_size`. -/
def Buffer.get_size (b : Buffer) : Nat × Nat :=
  (b.width, b.height)

/-- `Buffer::index_of`: flat index of `(x, y)`. -/
def Buffer.index_of (b : Buffer) (x y : Nat) : Nat :=
  y * b.width + x

/-- `Buffer::pos_of`: `(x, y)` of flat index `i`. -/
def Buffer.pos_of (b : Buffer) (i : Nat) : Nat × Nat :=
  (i % b.width, i / b.width)

/-- `Buffer::set`: overwrite one cell.  All writes performed by the code
embedded in this file are in bounds (the source `debug_assert`s this), and
`List.set` is the identity out of bounds. -/
def Buffer.set (b : Buffer) (x y : Nat) (cell : Cell) : Buffer :=
  { b with buffer := b.buffer.set (b.index_of x y) cell }

/-- `Buffer::get`: read one cell.  All reads performed by the theorems in
this file are in bounds. -/
def Buffer.get (b : Buffer) (x y : Nat) : Cell :=
  b.buffer.getD (b.index_of x y) Cell.default

/-- The loop body of `Buffer::diff`: walk the current (`l₁`, from `other`)
and previous (`l₂`, from `self`) cell sequences in lockstep — the source
iterates `next_buffer.iter().zip(prev_buffer.iter()).enumerate()` — and
push `(i % w, i / w, current)` for every position whose cells differ. -/
def diffGo (w : Nat) : Nat → List Cell → List Cell → List (Nat × Nat × Cell)
  | i, c :: cs, p :: ps =>
      (if c ≠ p then [(i % w, i / w, c)] else []) ++ diffGo w (i + 1) cs ps
  | _, _, _ => []

/-- `Buffer::diff`: the list of `(x, y, cell)` triples at which `other`'s
cell differs from `self`'s, carrying `other`'s cell, with `(x, y)` derived
from `self.width` via `pos_of`. -/
def Buffer.diff (self other : Buffer) : List (Nat × Nat × Cell) :=
  diffGo self.width 0 other.buffer self.buffer

/-- Shape invariant of `Buffer` (maintained by `Buffer::new` and every
operation of the program): the flat vector has exactly `width * height`
cells. -/
def Buffer.wf (b : Buffer) : Prop :=
  b.buffer.length = b.width * b.height

instance (b : Buffer) : Decidable b.wf := by
  unfold Buffer.wf; infer_instance

/-- Specification-side description of `diff`, following the spec text:
range over all flat indices `i` of the (shared) `width*height` shape and
emit `(i % width, i / width, other[i])` exactly when `self[i] ≠ other[i]`,
in increasing flat-index order.  (All indices are in bounds for well-formed
buffers, so `getD` always reads a real cell.) -/
def Buffer.diffSpec (self other : Buffer) : List (Nat × Nat × Cell) :=
  (List.range (self.width * self.height)).filterMap fun i =>
    if self.buffer.getD i Cell.default ≠ other.buffer.getD i Cell.default then
      some (i % self.width, i / self.width, other.buffer.getD i Cell.default)
    else none

/-- Index-wise description of `diff` valid for *arbitrary* (also
mismatched) shapes: only the first `min` of the two lengths is traversed,
coordinates always derived from the receiver's (`self`'s) width. -/
def Buffer.diffUpTo (self other : Buffer) : List (Nat × Nat × Cell) :=
  (List.range (min other.buffer.length self.buffer.length)).filterMap fun i =>
    if other.buffer.getD i Cell.default ≠ self.buffer.getD i Cell.default then
      some (i % self.width, i / self.width, other.buffer.getD i Cell.default)
    else none

/-! ### Concrete buffers used as witnesses (mirroring the `diff` test in
`src/buffer.rs`) -/

/-- 3×3 buffer with two cells overwritten, as in the source test `diff`. -/
def bufA3 : Buffer :=
  ((Buffer.new 3 3).set 0 0
      (Cell.new 'b' Color.Green Attr.NormalIntensity)).set 0 1
    (Cell.new 'a' Color.Green Attr.NormalIntensity)

/-- 3×3 buffer with three cells overwritten, as in the source test `diff`. -/
def bufB3 : Buffer :=
  (((Buffer.new 3 3).set 0 0
        (Cell.new 'c' Color.DarkGreen Attr.NormalIntensity)).set 0 1
      (Cell.new 'b' Color.Green Attr.NormalIntensity)).set 0 2
    (Cell.new 'a' Color.Green Attr.NormalIntensity)

/-! ## Random draws

`ThreadRng` is modelled as a stream `List Nat` of raw draws, threaded in
source order through every operation; `rand::rng()` hands out the same
thread-local generator everywhere, so one stream serves a whole run. -/

/-- `Rng::random_range(lo..hi)` (half-open, the maze code's form): consume
one draw and map it into the range.  All half-open ranges drawn by the
embedded code are nonempty; an exhausted stream yields `lo`. -/
def randRange (lo hi : Nat) : List Nat → Nat × List Nat
  | [] => (lo, [])
  | v :: rest => (lo + v % (hi - lo), rest)

/-- One inclusive draw, `lo + v % (hi - lo + 1)`. -/
def genRangeAux (lo hi : Nat) : List Nat → Nat × List Nat
  | [] => (lo, [])
  | v :: rest => (lo + v % (hi - lo + 1), rest)

/-- `Rng::gen_range(lo..=hi)` (inclusive, the rain code's form): the `rand`
crate panics on an empty range, modelled by `none`. -/
def genRange (lo hi : Nat) (rng : List Nat) : Option (Nat × List Nat) :=
  if lo ≤ hi then some (genRangeAux lo hi rng) else none

/-- `rng.random_range(0.0..=1.0) <= 0.3` (the "decent chance" test of
`DigitalRain::add_one`): a Bernoulli decision modelled by one draw. -/
def randChance30 (rng : List Nat) : Bool × List Nat :=
  let (v, r) := randRange 0 10 rng
  (v < 3, r)

/-! ## `src/blank/effect.rs`: the `Blank` effect -/

/-- `BlankOptions` (no fields). -/
structure BlankOptions
deriving DecidableEq, Repr

/-- The `Blank` effect state. -/
structure Blank where
  screen_size : Nat × Nat
  options : BlankOptions
  buffer : Buffer
deriving DecidableEq, Repr

/-- `Blank::new`: a buffer filled with green `'#'` cells. -/
def Blank.new (options : BlankOptions) (screen_size : Nat × Nat) : Blank :=
  let buffer := (Buffer.new screen_size.1 screen_size.2).fill_with
    (Cell.new '#' Color.Green Attr.Reset)
  ⟨screen_size, options, buffer⟩

/-- `Blank::get_diff`: rebuild the filled buffer, diff against the stored
previous buffer, store the new buffer. -/
def Blank.get_diff (s : Blank) : List (Nat × Nat × Cell) × Blank :=
  let curr_buffer := (Buffer.new s.screen_size.1 s.screen_size.2).fill_with
    (Cell.new '#' Color.Green Attr.Reset)
  (s.buffer.diff curr_buffer, { s with buffer := curr_buffer })

/-- `Blank::update` does nothing. -/
def Blank.update (s : Blank) : Blank := s

/-- `Blank::update_size`: record the new screen size, nothing else. -/
def Blank.update_size (s : Blank) (width height : Nat) : Blank :=
  { s with screen_size := (width, height) }

/-- `Blank::reset`: `*self = Self::new(self.options.clone(), self.screen_size)`. -/
def Blank.reset (s : Blank) : Blank :=
  Blank.new s.options s.screen_size

/-! ## `src/common.rs`: `run_loop`

The loop is embedded under the assumptions of the claim it serves: no quit
key is received (`process_input` keeps returning `true`), no resize events
are pending, every write succeeds, and an iteration cap `iterations` was
supplied.  `deltas i` is the (positive) measured duration, in seconds, of
iteration `i` at the point where the fps estimate is updated; the sleeps
only shape those values and are not otherwise observable.  The result pairs
the final smoothed fps with the number of executed loop bodies. -/

def run_loop_go (deltas : Nat → ℚ) (iterations : Nat) (fps : ℚ) (iters : Nat) : ℚ × Nat :=
  -- one loop body: draw the diff, update the effect, stabilize, then
  -- fps = (fps + 1/delta)/2, iters += 1, stop once iters > iterations
  let fps' := (fps + 1 / deltas iters) / 2
  let iters' := iters + 1
  if iters' > iterations then (fps', iters')
  else run_loop_go deltas iterations fps' iters'
termination_by iterations + 1 - iters
decreasing_by omega

/-- `run_loop` with an iteration cap, starting from `fps = 0.0`,
`iters = 0`. -/
def run_loop (deltas : Nat → ℚ) (iterations : Nat) : ℚ × Nat :=
  run_loop_go deltas iterations 0 0

/-! ## `src/rain/rain_drop.rs`: falling drops

Casts appearing in this module: `f32 -> u16` and `f32 -> usize` saturate,
`u16/usize -> i16` and `i16 -> u16` wrap; all are written out below. -/

/-- Executable floor of a rational (`den` is always positive). -/
def ratFloor (q : ℚ) : Int :=
  Int.fdiv q.num q.den

/-- `f32::round`: round half away from zero, computable on `ℚ`. -/
def ratRound (q : ℚ) : Int :=
  if 0 ≤ q then ratFloor (q + 1 / 2) else -(ratFloor (-q + 1 / 2))

/-- Saturating `as u16` applied to a rounded float. -/
def toU16sat (q : ℚ) : Nat :=
  min 65535 (ratRound q).toNat

/-- Saturating `as i16` applied to a rounded float. -/
def satI16 (z : Int) : Int :=
  max (-32768) (min 32767 z)

/-- Wrapping `as i16` applied to an unsigned integer. -/
def wrapI16 (n : Nat) : Int :=
  if n % 65536 < 32768 then ((n % 65536 : Nat) : Int)
  else ((n % 65536 : Nat) : Int) - 65536

/-- Wrapping `as u16` applied to an `i16` value. -/
def i16toU16 (z : Int) : Nat :=
  ((z % 65536 + 65536) % 65536).toNat

namespace Rain

/-- `CHARACTERS` from `src/rain/rain_drop.rs`, flattened in the insertion
order of `CHARACTERS_MAP` (digits, punctuation, katakana, other).  The
`HashMap` iteration order is unspecified; no theorem below depends on the
order, only on which characters are in the pool. -/
def CHARACTERS : List Char :=
  ("012345789".toList) ++ (":・.\"=*+-<>".toList) ++
    ("ﾊﾐﾋｰｳｼﾅﾓﾆｻﾜﾂｵﾘｱﾎﾃﾏｹﾒｴｶｷﾑﾕﾗｾﾈｽﾀﾇﾍ".toList) ++ ("¦çﾘｸ".toList)

/-- `static MIN_WORM_LENGTH: u16 = 10`. -/
def MIN_WORM_LENGTH : Nat := 10

/-- `static SPEED_RANGE: (u16, u16) = (2, 20)`. -/
def SPEED_RANGE : Nat × Nat := (2, 20)

/-- `SliceRandom::choose(...).unwrap()` on a nonempty slice: one index
draw. -/
def chooseChar (cs : List Char) (rng : List Nat) : Char × List Nat :=
  let (i, r) := randRange 0 cs.length rng
  (cs.getD i ' ', r)

inductive RainDropStyle where
  | Front
  | Middle
  | Back
  | Fading
  | Gradient
deriving DecidableEq, Repr

/-- `rand::random::<RainDropStyle>()`: `gen_range(0..=6)` then the `match`
of the `Distribution` impl. -/
def sampleStyle (rng : List Nat) : RainDropStyle × List Nat :=
  let (v, r) := genRangeAux 0 6 rng
  (match v with
    | 0 => RainDropStyle.Front
    | 1 => RainDropStyle.Middle
    | 2 => RainDropStyle.Back
    | 3 => RainDropStyle.Fading
    | _ => RainDropStyle.Gradient, r)

structure RainDrop where
  worm_id : Nat
  body : List Char
  vw_style : RainDropStyle
  fx : ℚ
  fy : ℚ
  max_length : Nat
  visible_pos : Nat
  finish : Bool
  speed : Nat
deriving DecidableEq, Repr

/-- `RainDrop::from_values`. -/
def RainDrop.from_values (worm_id : Nat) (body : List Char)
    (vw_style : RainDropStyle) (fx fy : ℚ) (max_length speed visible_pos : Nat)
    (finish : Bool) : RainDrop :=
  ⟨worm_id, body, vw_style, fx, fy, max_length, visible_pos, finish, speed⟩

/-- `RainDrop::new`: random one-character drop.  The `gen_range` draws can
panic (empty range) for small screens, hence `Option`. -/
def RainDrop.new (w h : Nat) (worm_id : Nat) (rng : List Nat) :
    Option (RainDrop × List Nat) := do
  let (c, rng1) := chooseChar CHARACTERS rng
  let body := [c]
  let (vw_style, rng2) := sampleStyle rng1
  let (fxn, rng3) ← genRange 1 w rng2
  let (fyn, rng4) ← genRange 1 (h / 2) rng3
  let (max_length, rng5) ← genRange MIN_WORM_LENGTH (h / 2) rng4
  let (speed, rng6) ← genRange SPEED_RANGE.1 SPEED_RANGE.2 rng5
  pure (RainDrop.from_values worm_id body vw_style (fxn : ℚ) (fyn : ℚ)
    max_length speed 0 false, rng6)

/-- `RainDrop::to_point`: round the float position and cast to `u16`. -/
def RainDrop.to_point (d : RainDrop) : Nat × Nat :=
  (toU16sat d.fx, toU16sat d.fy)

/-- The body loop of `RainDrop::to_points_vec`: walk the body upward from
the head, stop (`break`) at the first `yy < 1`. -/
def toPointsGo (head_x head_y : Nat) : Nat → List Char → List (Nat × Nat × Char)
  | _, [] => []
  | index, ch :: rest =>
      let yy : Int := wrapI16 head_y - wrapI16 index
      if 1 ≤ yy then (head_x, yy.toNat, ch) :: toPointsGo head_x head_y (index + 1) rest
      else []

/-- `RainDrop::to_points_vec`. -/
def RainDrop.to_points_vec (d : RainDrop) : List (Nat × Nat × Char) :=
  let (head_x, head_y) := d.to_point
  toPointsGo head_x head_y 0 d.body

/-- `RainDrop::reset`: one-character body at the top (`fy = 1.0`), fresh
random style/column/speed/length; panics (`none`) when `10..=h/2` is
empty, i.e. when `h < 20`. -/
def RainDrop.reset (d : RainDrop) (w h : Nat) (rng : List Nat) :
    Option (RainDrop × List Nat) := do
  let (c, rng1) := chooseChar CHARACTERS rng
  let (vw_style, rng2) := sampleStyle rng1
  let (fxn, rng3) ← genRange 1 w rng2
  let (speed, rng4) ← genRange SPEED_RANGE.1 SPEED_RANGE.2 rng3
  let (max_length, rng5) ← genRange MIN_WORM_LENGTH (h / 2) rng4
  pure ({ d with
    body := [c]
    vw_style := vw_style
    fy := 1
    fx := (fxn : ℚ)
    speed := speed
    finish := false
    visible_pos := 0
    max_length := max_length }, rng5)

/-- `RainDrop::grow_condition`. -/
def RainDrop.grow_condition (d : RainDrop) : Bool :=
  decide (8 < d.speed)

/-- `RainDrop::grow`: maybe prepend a fresh character, then truncate to
`max_length`. -/
def RainDrop.grow (d : RainDrop) (head_y : Nat) (rng : List Nat) :
    RainDrop × List Nat :=
  let (d1, rng1) :=
    if d.grow_condition then
      let (c, r) := chooseChar CHARACTERS rng
      ({ d with body := c :: d.body }, r)
    else
      let delta : Int := wrapI16 head_y - satI16 (ratRound d.fy)
      if 0 < delta then
        let (c, r) := chooseChar CHARACTERS rng
        ({ d with body := c :: d.body }, r)
      else (d, rng)
  if d1.max_length < d1.body.length then
    ({ d1 with body := d1.body.take d1.max_length }, rng1)
  else (d1, rng1)

/-- `RainDrop::update` with `dt` in milliseconds: self-heal an empty body
by `reset`, otherwise advance `fy` by `speed * dt / 1000` and grow / finish
/ recycle according to the head and tail positions. -/
def RainDrop.update (d : RainDrop) (w h : Nat) (dt_ms : Nat) (rng : List Nat) :
    Option (RainDrop × List Nat) :=
  if d.body.length = 0 then d.reset w h rng
  else
    let fy := d.fy + (d.speed : ℚ) * (dt_ms : ℚ) / 1000
    let head_y : Nat := toU16sat fy
    let tail_y : Int := satI16 (ratRound fy) - wrapI16 d.body.length
    if tail_y ≤ 1 then
      -- not fully come out from top
      let (d1, rng1) := d.grow head_y rng
      some ({ d1 with fy := fy }, rng1)
    else if head_y < h ∧ 1 < tail_y then
      -- somewhere in the middle
      let (d1, rng1) := d.grow head_y rng
      some ({ d1 with fy := fy }, rng1)
    else
      let d2 :=
        if h ≤ head_y then
          { d with
            finish := true
            visible_pos := d.visible_pos + (ratRound (fy - d.fy)).toNat
            fy := fy }
        else d
      if h ≤ i16toU16 tail_y then d2.reset w h rng
      else some (d2, rng)

end Rain

/-! ## `src/rain/gradient.rs` -/

/-- `gradient::Color` (`u8` components). -/
structure GradColor where
  r : Nat
  g : Nat
  b : Nat
deriving DecidableEq, Repr

/-- `lerp`: affine interpolation rounded and cast saturating to `u8`.
(For `t > 1` the source extrapolates; negative float results saturate
to 0.) -/
def lerp (a b : Nat) (t : ℚ) : Nat :=
  (max 0 (min 255 (ratRound ((a : ℚ) * (1 - t) + (b : ℚ) * t)))).toNat

/-- `two_step_color_gradient`: the `for i in 1..=length` loop. -/
def two_step_color_gradient (start_color middle_color end_color : GradColor)
    (middle_point length : Nat) : List GradColor :=
  (List.range length).map fun i0 =>
    let i := i0 + 1
    if i ≤ middle_point then
      let t : ℚ := (i : ℚ) / (middle_point : ℚ)
      ⟨lerp start_color.r middle_color.r t, lerp start_color.g middle_color.g t,
        lerp start_color.b middle_color.b t⟩
    else
      let t : ℚ := ((i - middle_point : Nat) : ℚ) / (middle_point : ℚ)
      ⟨lerp middle_color.r end_color.r t, lerp middle_color.g end_color.g t,
        lerp middle_color.b end_color.b t⟩

/-! ## `src/rain/draw.rs`: glyph styling -/

/-- `pick_style`. -/
def pick_style (vw_style : Rain.RainDropStyle) (pos : Nat) : Attr :=
  match vw_style with
  | Rain.RainDropStyle.Front => Attr.Bold
  | Rain.RainDropStyle.Middle =>
      if pos ≤ 4 then Attr.Bold else Attr.NormalIntensity
  | _ => Attr.NormalIntensity

/-- `pick_color`.  The `u16`/`u8` casts and `clamp(10, 256)` of the source
are written out; `gradients[2][pos]` is in range for every drawn position
(body length stays below the gradient length `3*h/2`), modelled with
`getD`. -/
def pick_color (vw_style : Rain.RainDropStyle) (pos : Nat)
    (gradients : List (List GradColor)) : Color :=
  match vw_style with
  | Rain.RainDropStyle.Gradient =>
      if pos = 0 then Color.White
      else Color.Rgb 0 (255 - (max 10 (min 256 ((pos % 65536) * 12 % 65536))) % 256) 0
  | Rain.RainDropStyle.Front =>
      if pos = 0 then Color.White
      else Color.Rgb 0 (255 - (max 10 (min 256 (pos ^ 2 % 65536))) % 256) 0
  | Rain.RainDropStyle.Back =>
      let color := (gradients.getD 2 []).getD pos ⟨0, 0, 0⟩
      Color.Rgb color.r color.g color.b
  | _ => Color.DarkGrey

/-! ## `src/rain/digital_rain.rs`: the digital-rain effect

This snapshot's `digital_rain.rs` addresses a slightly newer `RainDrop`
API than the `rain_drop.rs` present in the tree (it passes `screen_size`
and `&options` where `rain_drop.rs` takes `w, h`, and reads a field
`style` where the struct has `vw_style`).  The embedding resolves the
call-site mismatch against the `RainDrop` that is in the tree: tuple
arguments are unpacked into `w, h` and the drop's own `SPEED_RANGE` is
used, which is what `rain_drop.rs` implements. -/

/-- `DigitalRainOptions`. -/
structure DigitalRainOptions where
  drops_range : Nat × Nat
  speed_range : Nat × Nat
deriving DecidableEq, Repr

def DigitalRainOptions.get_min_drops_number (o : DigitalRainOptions) : Nat :=
  o.drops_range.1

def DigitalRainOptions.get_max_drops_number (o : DigitalRainOptions) : Nat :=
  o.drops_range.2

def DigitalRainOptions.get_min_speed (o : DigitalRainOptions) : Nat :=
  o.speed_range.1

def DigitalRainOptions.get_max_speed (o : DigitalRainOptions) : Nat :=
  o.speed_range.2

/-- The `DigitalRain` effect state. -/
structure DigitalRain where
  screen_size : Nat × Nat
  options : DigitalRainOptions
  gradients : List (List GradColor)
  rain_drops : List Rain.RainDrop
  buffer : Buffer
  rng : List Nat
deriving DecidableEq, Repr

/-- The comparator of `rain_drops.sort_by(|a, b|
a.speed.partial_cmp(&b.speed).unwrap())`. -/
def dropLE : Rain.RainDrop → Rain.RainDrop → Prop :=
  fun a b => a.speed ≤ b.speed

instance : DecidableRel dropLE := fun a b => Nat.decLe a.speed b.speed

instance : IsTotal Rain.RainDrop dropLE :=
  ⟨fun a b => Nat.le_total a.speed b.speed⟩

instance : IsTrans Rain.RainDrop dropLE :=
  ⟨fun _ _ _ hab hbc => Nat.le_trans hab hbc⟩

/-- The in-place stable sort by speed, modelled by insertion sort (also
stable, so it computes the same permutation as Rust's stable `sort_by`). -/
def sortDrops (l : List Rain.RainDrop) : List Rain.RainDrop :=
  List.insertionSort dropLE l

/-- Drawing one drop into the buffer: the inner loop of
`DigitalRain::fill_buffer` over `rain_drop.to_points_vec()`, skipping
points outside the buffer. -/
def drawDrop (gradients : List (List GradColor)) (buffer : Buffer)
    (d : Rain.RainDrop) : Buffer :=
  (d.to_points_vec.enum).foldl
    (fun buf p =>
      match p with
      | (index, (x, y, character)) =>
          let (width, height) := buf.get_size
          if x < width ∧ y < height then
            buf.set x y (Cell.new character (pick_color d.vw_style index gradients)
              (pick_style d.vw_style index))
          else buf)
    buffer

/-- `DigitalRain::fill_buffer`: sort the drops by speed (in place — the
sorted list is returned as the new `rain_drops`), then draw them in
reverse order. -/
def DigitalRain.fill_buffer (rain_drops : List Rain.RainDrop) (buffer : Buffer)
    (gradients : List (List GradColor)) : List Rain.RainDrop × Buffer :=
  let sorted := sortDrops rain_drops
  (sorted, sorted.reverse.foldl (drawDrop gradients) buffer)

/-- `DigitalRain::new`: spawn `get_min_drops_number` drops, build the three
gradients, pre-render the drops into the stored buffer. -/
def DigitalRain.new (options : DigitalRainOptions) (screen_size : Nat × Nat)
    (rng : List Nat) : Option DigitalRain := do
  let (rain_drops, rng1) ← (List.range options.get_min_drops_number).foldlM
    (fun (acc : List Rain.RainDrop × List Nat) i => do
      let (d, r) ← Rain.RainDrop.new screen_size.1 screen_size.2 (i + 1) acc.2
      pure (acc.1 ++ [d], r))
    (([] : List Rain.RainDrop), rng)
  let buffer := Buffer.new screen_size.1 screen_size.2
  let gradients :=
    [two_step_color_gradient ⟨255, 255, 255⟩ ⟨0, 255, 0⟩ ⟨10, 10, 10⟩ 4
        (3 * screen_size.2 / 2),
      two_step_color_gradient ⟨200, 200, 200⟩ ⟨0, 250, 0⟩ ⟨10, 10, 10⟩ 6
        (3 * screen_size.2 / 2),
      two_step_color_gradient ⟨200, 200, 200⟩ ⟨0, 200, 0⟩ ⟨10, 10, 10⟩
        (screen_size.2 / 2) (3 * screen_size.2 / 2)]
  let (sorted, buffer2) := DigitalRain.fill_buffer rain_drops buffer gradients
  pure ⟨screen_size, options, gradients, sorted, buffer2, rng1⟩

/-- `DigitalRain::get_diff`: render the current frame into a fresh buffer,
diff the stored previous buffer against it, store it. -/
def DigitalRain.get_diff (s : DigitalRain) : List (Nat × Nat × Cell) × DigitalRain :=
  let curr0 := Buffer.new s.screen_size.1 s.screen_size.2
  let (sorted, curr_buffer) := DigitalRain.fill_buffer s.rain_drops curr0 s.gradients
  (s.buffer.diff curr_buffer, { s with rain_drops := sorted, buffer := curr_buffer })

/-- `DigitalRain::add_one`: below the drop cap, with chance 0.3 spawn one
more drop. -/
def DigitalRain.add_one (s : DigitalRain) : Option DigitalRain :=
  if s.options.get_max_drops_number ≤ s.rain_drops.length then some s
  else
    let (hit, rng1) := randChance30 s.rng
    if hit then do
      let (d, rng2) ← Rain.RainDrop.new s.screen_size.1 s.screen_size.2
        (s.rain_drops.length + 1) rng1
      pure { s with rain_drops := s.rain_drops ++ [d], rng := rng2 }
    else some { s with rng := rng1 }

/-- `DigitalRain::update`: update every drop with the fixed nominal
timestep of 50 ms, then `add_one`. -/
def DigitalRain.update (s : DigitalRain) : Option DigitalRain := do
  let (drops, rng1) ← s.rain_drops.foldlM
    (fun (acc : List Rain.RainDrop × List Nat) d => do
      let (d2, r) ← d.update s.screen_size.1 s.screen_size.2 50 acc.2
      pure (acc.1 ++ [d2], r))
    (([] : List Rain.RainDrop), s.rng)
  DigitalRain.add_one { s with rain_drops := drops, rng := rng1 }

/-- `DigitalRain::update_size`: record the new screen size, nothing else. -/
def DigitalRain.update_size (s : DigitalRain) (width height : Nat) : DigitalRain :=
  { s with screen_size := (width, height) }

/-- `DigitalRain::reset`: `*self = DigitalRain::new(self.options.clone(),
self.screen_size)` (the fresh `rand::rng()` is the same thread stream). -/
def DigitalRain.reset (s : DigitalRain) : Option DigitalRain :=
  DigitalRain.new s.options s.screen_size s.rng

/-! ## `src/maze/effect.rs`: the `Maze` effect

`HashSet<(usize, usize)>` (`paths`) is modelled as a duplicate-free list
with order-insensitive use; `VecDeque` (`stack`) as a list whose head is
the back.  The thread generator is one stream, stored in the state. -/

/-- `MazeOptions` (no fields). -/
structure MazeOptions
deriving DecidableEq, Repr

/-- The `Maze` effect state. -/
structure Maze where
  screen_size : Nat × Nat
  options : MazeOptions
  buffer : Buffer
  initial_walls : Buffer
  paths : List (Nat × Nat)
  stack : List (Int × Int)
  maze_complete : Bool
  rng : List Nat
deriving DecidableEq, Repr

/-- `CHARACTERS` from `src/maze/effect.rs` (no digits, unlike the rain
pool), flattened in map-insertion order; no theorem depends on the
order. -/
def Maze.CHARACTERS : List Char :=
  (":.\"=*+-<>".toList) ++
    ("ﾊﾐﾋｰｳｼﾅﾓﾆｻﾜﾂｵﾘｱﾎﾃﾏｹﾒｴｶｷﾑﾕﾗｾﾈｽﾀﾇﾍ".toList) ++ ("¦çﾘｸ".toList)

/-- The body of `fill_initial_walls`' inner loop: draw a character and a
dark-ish color, write a `Bold` cell at `(x, y)`. -/
def wallStep (y : Nat) (acc2 : Buffer × List Nat) (x : Nat) : Buffer × List Nat :=
  let ci := (randRange 0 Maze.CHARACTERS.length acc2.2).1
  let r1 := (randRange 0 Maze.CHARACTERS.length acc2.2).2
  let rr := (randRange 0 120 r1).1
  let r2 := (randRange 0 120 r1).2
  let gg := (randRange 0 256 r2).1
  let r3 := (randRange 0 256 r2).2
  let bb := (randRange 0 120 r3).1
  let r4 := (randRange 0 120 r3).2
  (acc2.1.set x y
    (Cell.new (Maze.CHARACTERS.getD ci ' ') (Color.Rgb rr gg bb) Attr.Bold), r4)

/-- One row `y` of `fill_initial_walls`: `for x in 0..width`. -/
def wallRow (w : Nat) (acc : Buffer × List Nat) (y : Nat) : Buffer × List Nat :=
  (List.range w).foldl (wallStep y) acc

/-- `fill_initial_walls`: give every cell a random character and a random
dark-ish color, attribute `Bold`, row by row (`for y in 0..height`,
`for x in 0..width`). -/
def fill_initial_walls (buffer : Buffer) (rng : List Nat) : Buffer × List Nat :=
  (List.range buffer.height).foldl (wallRow buffer.width) (buffer, rng)

/-- `Maze::new`: blank previous buffer, random start on the stack, walls
pre-filled. -/
def Maze.new (options : MazeOptions) (screen_size : Nat × Nat) (rng : List Nat) :
    Maze :=
  let buffer := Buffer.new screen_size.1 screen_size.2
  let start_x := (randRange 0 screen_size.1 rng).1
  let rng1 := (randRange 0 screen_size.1 rng).2
  let start_y := (randRange 0 screen_size.2 rng1).1
  let rng2 := (randRange 0 screen_size.2 rng1).2
  let stack : List (Int × Int) := [((start_x : Int), (start_y : Int))]
  let walls := fill_initial_walls buffer rng2
  ⟨screen_size, options, buffer, walls.1, [], stack, false, walls.2⟩

/-- `Maze::is_valid_cell`. -/
def Maze.is_valid_cell (s : Maze) (x y : Int) : Bool :=
  decide (0 ≤ x) && decide (0 ≤ y) &&
    decide (x.toNat < s.screen_size.1) && decide (y.toNat < s.screen_size.2)

/-- `HashSet::insert` on the `paths` set. -/
def insertPath (ps : List (Nat × Nat)) (p : Nat × Nat) : List (Nat × Nat) :=
  if p ∈ ps then ps else ps ++ [p]

/-- One `self.buffer.set` swap step of `SliceRandom::shuffle`
(Fisher–Yates). -/
def listSwap (l : List (Int × Int)) (i j : Nat) : List (Int × Int) :=
  (l.set i (l.getD j (0, 0))).set j (l.getD i (0, 0))

/-- `shuffled_directions.shuffle(&mut self.rng)` on the 4 directions:
`for i in (1..4).rev() { swap(i, random_range(0..=i)) }`. -/
def shuffle4 (dirs : List (Int × Int)) (rng : List Nat) :
    List (Int × Int) × List Nat :=
  [3, 2, 1].foldl
    (fun acc i =>
      let (j, r) := randRange 0 (i + 1) acc.2
      (listSwap acc.1 i j, r))
    (dirs, rng)

/-- `Maze::update`: one backtracking-DFS carving step (or mark the maze
complete when the stack is empty). -/
def Maze.update (s : Maze) : Maze :=
  if s.maze_complete then s
  else
    match s.stack with
    | [] => { s with maze_complete := true }
    | (x, y) :: rest =>
        let directions : List (Int × Int) := [(2, 0), (0, 2), (-2, 0), (0, -2)]
        let shuffled := (shuffle4 directions s.rng).1
        let rng1 := (shuffle4 directions s.rng).2
        match shuffled.find? (fun d =>
            s.is_valid_cell (x + d.1) (y + d.2) &&
            s.is_valid_cell (x + d.1.tdiv 2) (y + d.2.tdiv 2) &&
            !(decide (((x + d.1).toNat, (y + d.2).toNat) ∈ s.paths))) with
        | some d =>
            let new_x := x + d.1
            let new_y := y + d.2
            { s with
              paths := insertPath (insertPath s.paths (new_x.toNat, new_y.toNat))
                ((x + d.1.tdiv 2).toNat, (y + d.2.tdiv 2).toNat)
              stack := (new_x, new_y) :: (x, y) :: rest
              rng := rng1 }
        | none =>
            -- dead-end: pop once more to backtrack
            { s with
              stack := rest.tail
              rng := rng1 }

/-- The body of the `while modified_cells.len() < 3` sparkle loop of
`Maze::get_diff`, structurally recursive on a fuel that counts remaining
draws (each loop pass consumes at least one draw, so `rng.length` passes
always suffice; the source draws from an infinite generator, and with a
finite stream the loop stops when the stream runs dry — never reached by
the streams used below). -/
def sparkleGo (fuel : Nat) (iw : Buffer) (modified : List (Nat × Nat))
    (rng : List Nat) : Buffer × List Nat :=
  match fuel with
  | 0 => (iw, rng)
  | fuel + 1 =>
    if modified.length < 3 then
      match rng with
      | [] => (iw, [])
      | v :: rng0 =>
        let x := (randRange 0 iw.width (v :: rng0)).1
        let rng1 := (randRange 0 iw.width (v :: rng0)).2
        let y := (randRange 0 iw.height rng1).1
        let rng2 := (randRange 0 iw.height rng1).2
        if (x, y) ∈ modified then sparkleGo fuel iw modified rng2
        else
          let ci := (randRange 0 Maze.CHARACTERS.length rng2).1
          let rng3 := (randRange 0 Maze.CHARACTERS.length rng2).2
          let rr := (randRange 0 200 rng3).1
          let rng4 := (randRange 0 200 rng3).2
          let gg := (randRange 0 256 rng4).1
          let rng5 := (randRange 0 256 rng4).2
          let bb := (randRange 0 200 rng5).1
          let rng6 := (randRange 0 200 rng5).2
          sparkleGo fuel
            (iw.set x y
              (Cell.new (Maze.CHARACTERS.getD ci ' ') (Color.Rgb rr gg bb) Attr.Bold))
            (modified ++ [(x, y)]) rng6
    else (iw, rng)

/-- The sparkle loop: randomly recolor three distinct cells of
`initial_walls`. -/
def sparkleLoop (iw : Buffer) (modified : List (Nat × Nat)) (rng : List Nat) :
    Buffer × List Nat :=
  sparkleGo rng.length iw modified rng

/-- `Maze::reset`: rebuild from scratch at the stored size (walls are
filled a second time on top of the fresh instance's walls), clear paths
and stack, push a fresh random start. -/
def Maze.reset (s : Maze) : Maze :=
  let new_effect := Maze.new s.options s.screen_size s.rng
  let iw := (fill_initial_walls new_effect.initial_walls new_effect.rng).1
  let rngA := (fill_initial_walls new_effect.initial_walls new_effect.rng).2
  let start_x := (randRange 0 s.screen_size.1 rngA).1
  let rngB := (randRange 0 s.screen_size.1 rngA).2
  let start_y := (randRange 0 s.screen_size.2 rngB).1
  let rngC := (randRange 0 s.screen_size.2 rngB).2
  { new_effect with
    initial_walls := iw
    maze_complete := false
    paths := []
    stack := [((start_x : Int), (start_y : Int))]
    rng := rngC }

/-- `Maze::get_diff`: on completion reset and return the empty diff;
otherwise sparkle three wall cells (mutating `initial_walls` only — the
current frame was cloned before), overlay the carved paths as white
blocks, diff and store. -/
def Maze.get_diff (s : Maze) : List (Nat × Nat × Cell) × Maze :=
  if s.maze_complete then
    ([], Maze.reset s)
  else
    let curr0 := s.initial_walls
    let iw := (sparkleLoop s.initial_walls [] s.rng).1
    let rng1 := (sparkleLoop s.initial_walls [] s.rng).2
    let curr_buffer := s.paths.foldl
      (fun buf p => buf.set p.1 p.2 (Cell.new '█' Color.White Attr.Reset)) curr0
    (s.buffer.diff curr_buffer,
      { s with
        buffer := curr_buffer
        initial_walls := iw
        rng := rng1 })

/-- `Maze::update_size`: record the new screen size, nothing else. -/
def Maze.update_size (s : Maze) (width height : Nat) : Maze :=
  { s with screen_size := (width, height) }

/-- The zero-length-body drop of the source test `update` ("edge case when
body len is 0"). -/
def rdZero : Rain.RainDrop :=
  Rain.RainDrop.from_values 1 [] Rain.RainDropStyle.Middle (103 / 10) (108 / 10) 3 8 0 false

/-! ### Concrete runs used by witnesses and counterexamples -/

/-- Options of the end-to-end rain scenario of the spec: a fixed drop
count of 20 (`drops_range = (20, 20)`), speeds 10–20. -/
def drOpts30 : DigitalRainOptions := ⟨(20, 20), (10, 20)⟩

/-- A draw stream for the 30×30 rain scenario: each of the 20 spawned
drops draws `[char, style, fx, fy, max_length, speed]`; `fx = 1 + 29 % 30
= 30` places every drop in the column just outside the 30-wide buffer, so
nothing is ever rendered. -/
def rainRngC : List Nat :=
  (List.replicate 20 [0, 0, 29, 0, 0, 0]).flatten

/-- The spec's end-to-end rain scenario: construct 30×30 with 20 drops,
`get_diff`, `update`, `get_diff` again; returns the two diff lengths. -/
def rainScenario : Option (Nat × Nat) := do
  let s0 ← DigitalRain.new drOpts30 (30, 30) rainRngC
  let (d1, s1) := DigitalRain.get_diff s0
  let s2 ← DigitalRain.update s1
  let (d2, _) := DigitalRain.get_diff s2
  pure (d1.length, d2.length)

/-- Degenerate options (no drops) for small concrete digital-rain runs. -/
def drOpts0 : DigitalRainOptions := ⟨(0, 0), (0, 0)⟩

/-- A 2×2 digital-rain state with empty drop list: a concrete state whose
`options`, `screen_size` and `rng` seed small concrete runs. -/
def drDummy : DigitalRain :=
  ⟨(2, 2), drOpts0, [], [], Buffer.new 2 2, []⟩

/-- The fresh instance `DigitalRain::new(drOpts0, (2,2))` (total here: no
drops are spawned, so no random range can be empty). -/
def dr0 : DigitalRain :=
  (DigitalRain.new drOpts0 (2, 2) []).getD drDummy

/-- A draw stream for a 2×2 maze: start cell, 16 wall draws (all zero:
every wall is `':'` with color `Rgb 0 0 0`, bold), then the first
`get_diff`'s sparkle draws recoloring cells (0,0), (1,0), (0,1) to a
different character and color. -/
def mazeRngC : List Nat :=
  [0, 0] ++ List.replicate 16 0 ++
    [0, 0, 1, 5, 5, 5, 1, 0, 1, 5, 5, 5, 0, 1, 1, 5, 5, 5]

/-- The number of non-default cells of a buffer (what the spec calls the
size of a "full repaint" of a freshly constructed state). -/
def nonDefaultCount (b : Buffer) : Nat :=
  (b.buffer.filter fun c => c ≠ Cell.default).length

/-! ## Theorems -/

theorem diffGo_nil_left (w i : Nat) (l : List Cell) : diffGo w i [] l = [] := by
  cases l <;> rfl

theorem diffGo_nil_right (w i : Nat) (l : List Cell) : diffGo w i l [] = [] := by
  cases l <;> rfl

theorem diffGo_self (w : Nat) (l : List Cell) : ∀ i, diffGo w i l l = [] := by
  induction l with
  | nil => intro i; rfl
  | cons c cs ih =>
      intro i
      simp [diffGo, ih]

/-- Diffing a buffer against itself is empty (holds for every buffer). -/
theorem Buffer.diff_self (b : Buffer) : b.diff b = [] :=
  diffGo_self b.width b.buffer 0

theorem diffGo_eq_range (w : Nat) (l₁ : List Cell) :
    ∀ (l₂ : List Cell) (i : Nat),
      diffGo w i l₁ l₂ =
        (List.range (min l₁.length l₂.length)).filterMap fun j =>
          if l₁.getD j Cell.default ≠ l₂.getD j Cell.default then
            some ((i + j) % w, (i + j) / w, l₁.getD j Cell.default)
          else none := by
  induction l₁ with
  | nil => intro l₂ i; simp [diffGo_nil_left]
  | cons c cs ih =>
      intro l₂ i
      cases l₂ with
      | nil => simp [diffGo_nil_right]
      | cons p ps =>
          have hmin : min (c :: cs).length ((p :: ps).length) = min cs.length ps.length + 1 := by
            simp [Nat.succ_min_succ]
          rw [hmin, List.range_succ_eq_map, List.filterMap_cons, List.filterMap_map]
          have hcomp :
              List.filterMap
                ((fun j =>
                    if (c :: cs).getD j Cell.default ≠ (p :: ps).getD j Cell.default then
                      some ((i + j) % w, (i + j) / w, (c :: cs).getD j Cell.default)
                    else none) ∘ Nat.succ)
                (List.range (min cs.length ps.length)) = diffGo w (i + 1) cs ps := by
            rw [ih ps (i + 1)]
            apply List.filterMap_congr
            intro j _
            simp only [Function.comp_apply, Nat.succ_eq_add_one, List.getD_cons_succ]
            have harith : i + (j + 1) = i + 1 + j := by omega
            rw [harith]
          by_cases hcp : c = p
          · subst hcp
            simp only [List.getD_cons_zero, ne_eq, not_true_eq_false, ite_false, hcomp]
            simp [diffGo]
          · simp only [List.getD_cons_zero, ne_eq, hcp, not_false_eq_true, ite_true, hcomp]
            simp [diffGo, hcp]

/-- `diff` computes exactly the index-wise description, for every pair of
buffers, of any shapes. -/
theorem Buffer.diff_eq_diffUpTo (A B : Buffer) : A.diff B = A.diffUpTo B := by
  unfold Buffer.diff Buffer.diffUpTo
  rw [diffGo_eq_range]
  apply List.filterMap_congr
  intro j _
  simp

theorem diffGo_length_le (w : Nat) (l₁ : List Cell) :
    ∀ (l₂ : List Cell) (i : Nat),
      (diffGo w i l₁ l₂).length ≤ min l₁.length l₂.length := by
  induction l₁ with
  | nil => intro l₂ i; simp [diffGo_nil_left]
  | cons c cs ih =>
      intro l₂ i
      cases l₂ with
      | nil => simp [diffGo_nil_right]
      | cons p ps =>
          simp only [diffGo, List.length_append, List.length_cons, Nat.succ_min_succ]
          have h := ih ps (i + 1)
          by_cases hcp : c = p
          · simp [hcp]; omega
          · simp [hcp]; omega

theorem diffGo_length_eq (w : Nat) (l₁ : List Cell) :
    ∀ (l₂ : List Cell) (i : Nat),
      (∀ k : Nat, k < min l₁.length l₂.length →
        l₁.getD k Cell.default ≠ l₂.getD k Cell.default) →
      (diffGo w i l₁ l₂).length = min l₁.length l₂.length := by
  induction l₁ with
  | nil => intro l₂ i _; simp [diffGo_nil_left]
  | cons c cs ih =>
      intro l₂ i h
      cases l₂ with
      | nil => simp [diffGo_nil_right]
      | cons p ps =>
          have hcp : c ≠ p := by
            have := h 0 (by simp [Nat.succ_min_succ])
            simpa using this
          simp only [diffGo, ne_eq, hcp, not_false_eq_true, ite_true,
            List.singleton_append, List.length_cons, Nat.succ_min_succ]
          rw [ih ps (i + 1) fun k hk => by
            have := h (k + 1) (by simp only [List.length_cons, Nat.succ_min_succ]; omega)
            simpa using this]

/-- C1: for buffers of identical width and height, `A.diff(B)` returns
exactly the positions at which `A`'s cell differs from `B`'s cell under
full structural equality, each triple carrying `B`'s cell value, with
`x = i % width`, `y = i / width` for flat index `i`, in increasing
flat-index order; and `A.diff(A)` is empty for every buffer `A`. -/
theorem diff_returns_exact_changes (A B : Buffer) (hA : A.wf) (hB : B.wf)
    (hw : A.width = B.width) (hh : A.height = B.height) :
    A.diff B = A.diffSpec B ∧ A.diff A = [] := by
  refine ⟨?_, Buffer.diff_self A⟩
  rw [Buffer.diff_eq_diffUpTo]
  unfold Buffer.diffUpTo Buffer.diffSpec
  have hlen : min B.buffer.length A.buffer.length = A.width * A.height := by
    rw [Buffer.wf] at hA hB
    rw [hA, hB, hw, hh, min_self]
  rw [hlen]
  apply List.filterMap_congr
  intro j _
  by_cases hab : B.buffer.getD j Cell.default = A.buffer.getD j Cell.default
  · rw [if_neg (fun hcon => hcon hab), if_neg (fun hcon => hcon hab.symm)]
  · rw [if_pos hab, if_pos (Ne.symm hab)]

theorem diff_returns_exact_changes_witness :
    (bufA3.wf ∧ bufB3.wf ∧ bufA3.width = bufB3.width ∧ bufA3.height = bufB3.height) ∧
      (bufA3.diff bufB3 = bufA3.diffSpec bufB3 ∧ bufA3.diff bufA3 = []) :=
  ⟨⟨by decide, by decide, by decide, by decide⟩,
    diff_returns_exact_changes bufA3 bufB3 (by decide) (by decide) (by decide) (by decide)⟩

/-- C10: `Buffer::diff` is total for every pair of buffers, of any shapes:
it traverses the two cell sequences zipped together (never reading past the
shorter one), the emitted triples are exactly the index-wise differences
over the common prefix with coordinates derived from the receiver's width,
and their number is at most the length of the shorter cell sequence. -/
theorem diff_total_any_shapes (A B : Buffer) :
    A.diff B = A.diffUpTo B ∧
      (A.diff B).length ≤ min B.buffer.length A.buffer.length := by
  refine ⟨Buffer.diff_eq_diffUpTo A B, ?_⟩
  exact diffGo_length_le A.width B.buffer A.buffer 0

/-- C6: `Buffer::new(width, height)` rejects a zero width or height (the
`debug_assert` fires, modelled by `Buffer.new?` returning `none`); for
`1 × 1` it succeeds, every cell is the default blank cell (space glyph,
black color, reset attribute), and a `set` followed by a `get` at `(0, 0)`
round-trips. -/
theorem buffer_new_boundary :
    (∀ h : Nat, Buffer.new? 0 h = none) ∧
    (∀ w : Nat, Buffer.new? w 0 = none) ∧
    Cell.default = ⟨' ', Color.Black, Attr.Reset⟩ ∧
    (∃ b : Buffer, Buffer.new? 1 1 = some b ∧ b.buffer = [Cell.default] ∧
      ∀ c : Cell, ((b.set 0 0 c).get 0 0) = c) := by
  refine ⟨fun h => by simp [Buffer.new?], fun w => by simp [Buffer.new?], rfl,
    Buffer.new 1 1, by simp [Buffer.new?], rfl, fun c => rfl⟩

theorem fps_step_nonneg (fps d : ℚ) (hf : 0 ≤ fps) (hd : 0 < d) :
    0 ≤ (fps + 1 / d) / 2 :=
  div_nonneg (add_nonneg hf (one_div_nonneg.mpr hd.le)) (by norm_num)

theorem run_loop_go_count (deltas : Nat → ℚ) (N : Nat) :
    ∀ (k iters : Nat) (fps : ℚ), N + 1 - iters = k → iters ≤ N →
      (run_loop_go deltas N fps iters).2 = N + 1 := by
  intro k
  induction k with
  | zero => intro iters fps hk hle; omega
  | succ k ih =>
      intro iters fps hk hle
      rw [run_loop_go]
      by_cases hstop : iters + 1 > N
      · simp only [hstop, if_true]
        omega
      · simp only [hstop, if_false]
        exact ih (iters + 1) _ (by omega) (by omega)

theorem run_loop_go_fps_nonneg (deltas : Nat → ℚ) (N : Nat) (hd : ∀ i, 0 < deltas i) :
    ∀ (k iters : Nat) (fps : ℚ), N + 1 - iters ≤ k → 0 ≤ fps →
      0 ≤ (run_loop_go deltas N fps iters).1 := by
  intro k
  induction k with
  | zero =>
      intro iters fps hk hfps
      rw [run_loop_go]
      have hstop : iters + 1 > N := by omega
      simp only [hstop, if_true]
      exact fps_step_nonneg fps (deltas iters) hfps (hd iters)
  | succ k ih =>
      intro iters fps hk hfps
      rw [run_loop_go]
      by_cases hstop : iters + 1 > N
      · simp only [hstop, if_true]
        exact fps_step_nonneg fps (deltas iters) hfps (hd iters)
      · simp only [hstop, if_false]
        exact ih (iters + 1) _ (by omega)
          (fps_step_nonneg fps (deltas iters) hfps (hd iters))

/-- C5: for every iteration cap `N` (no quit input, no I/O error, every
frame taking a positive duration), the loop body of `run_loop` executes
exactly `N + 1` times — the loop continues while `iters <= iterations` —
and the returned smoothed fps estimate is a (finite) rational that is
non-negative. -/
theorem run_loop_cap_iterations (deltas : Nat → ℚ) (N : Nat) (hd : ∀ i, 0 < deltas i) :
    (run_loop deltas N).2 = N + 1 ∧ 0 ≤ (run_loop deltas N).1 :=
  ⟨run_loop_go_count deltas N (N + 1) 0 0 rfl (Nat.zero_le N),
   run_loop_go_fps_nonneg deltas N hd (N + 1) 0 0 (by omega) le_rfl⟩

theorem run_loop_cap_iterations_witness :
    (∀ i : Nat, (0 : ℚ) < (fun _ : Nat => (1 : ℚ)) i) ∧
      ((run_loop (fun _ : Nat => (1 : ℚ)) 2).2 = 2 + 1 ∧
        0 ≤ (run_loop (fun _ : Nat => (1 : ℚ)) 2).1) :=
  ⟨fun _ => one_pos, run_loop_cap_iterations (fun _ : Nat => (1 : ℚ)) 2 (fun _ => one_pos)⟩

/-- C8: for each effect, `update_size(width, height)` only overwrites the
stored screen size: every other component of the state (previous-frame
buffer, entity collections, simulation sub-state, generator) is unchanged,
and no buffer is reallocated or resized. -/
theorem update_size_only_stores_size :
    (∀ (s : Maze) (w h : Nat),
      (s.update_size w h).screen_size = (w, h) ∧
      (s.update_size w h).options = s.options ∧
      (s.update_size w h).buffer = s.buffer ∧
      (s.update_size w h).initial_walls = s.initial_walls ∧
      (s.update_size w h).paths = s.paths ∧
      (s.update_size w h).stack = s.stack ∧
      (s.update_size w h).maze_complete = s.maze_complete ∧
      (s.update_size w h).rng = s.rng) ∧
    (∀ (s : DigitalRain) (w h : Nat),
      (s.update_size w h).screen_size = (w, h) ∧
      (s.update_size w h).options = s.options ∧
      (s.update_size w h).gradients = s.gradients ∧
      (s.update_size w h).rain_drops = s.rain_drops ∧
      (s.update_size w h).buffer = s.buffer ∧
      (s.update_size w h).rng = s.rng) ∧
    (∀ (s : Blank) (w h : Nat),
      (s.update_size w h).screen_size = (w, h) ∧
      (s.update_size w h).options = s.options ∧
      (s.update_size w h).buffer = s.buffer) :=
  ⟨fun _ _ _ => ⟨rfl, rfl, rfl, rfl, rfl, rfl, rfl, rfl⟩,
   fun _ _ _ => ⟨rfl, rfl, rfl, rfl, rfl, rfl⟩,
   fun _ _ _ => ⟨rfl, rfl, rfl⟩⟩

theorem rain_drop_reset_ok (d : Rain.RainDrop) (w h : Nat) (rng : List Nat)
    (hw : 1 ≤ w) (hh : 20 ≤ h) :
    ∃ d2 rng2, d.reset w h rng = some (d2, rng2) ∧
      d2.body.length = 1 ∧ d2.fy = 1 ∧ d2.finish = false ∧
      d2.visible_pos = 0 ∧ d2.worm_id = d.worm_id := by
  have h10 : Rain.MIN_WORM_LENGTH ≤ h / 2 := by
    unfold Rain.MIN_WORM_LENGTH; omega
  unfold Rain.RainDrop.reset
  rcases hcc : Rain.chooseChar Rain.CHARACTERS rng with ⟨c, rng1⟩
  rcases hss : Rain.sampleStyle rng1 with ⟨st, rng2⟩
  rcases h3 : genRangeAux 1 w rng2 with ⟨fxn, rng3⟩
  rcases h4 : genRangeAux Rain.SPEED_RANGE.1 Rain.SPEED_RANGE.2 rng3 with ⟨speed, rng4⟩
  rcases h5 : genRangeAux Rain.MIN_WORM_LENGTH (h / 2) rng4 with ⟨ml, rng5⟩
  simp only [hcc, hss, genRange, Rain.SPEED_RANGE, if_pos hw, if_pos h10, h3, h4, h5]
  norm_num

/-- C9 amended: for a rain drop with a zero-length body, `update` on a
screen with `w ≥ 1` and `h ≥ 20` does not fail: it self-heals by resetting
the drop to a one-character body at the top (`fy = 1.0`) and returns
without advancing.  (For `h < 20` the reset's `gen_range(10..=h/2)` is
handed an empty range and panics — see the counterexample at 1×1.) -/
theorem rain_drop_zero_body_self_heals (d : Rain.RainDrop) (w h dt_ms : Nat)
    (rng : List Nat) (hbody : d.body = []) (hw : 1 ≤ w) (hh : 20 ≤ h) :
    ∃ d2 rng2, d.update w h dt_ms rng = some (d2, rng2) ∧
      d2.body.length = 1 ∧ d2.fy = 1 ∧ d2.finish = false ∧
      d2.visible_pos = 0 ∧ d2.worm_id = d.worm_id := by
  unfold Rain.RainDrop.update
  rw [hbody]
  simp only [List.length_nil, if_pos rfl]
  exact rain_drop_reset_ok d w h rng hw hh

theorem rain_drop_zero_body_self_heals_witness :
    (rdZero.body = [] ∧ 1 ≤ 1 ∧ 20 ≤ 20) ∧
      (∃ d2 rng2, rdZero.update 1 20 1000 [] = some (d2, rng2) ∧
        d2.body.length = 1 ∧ d2.fy = 1 ∧ d2.finish = false ∧
        d2.visible_pos = 0 ∧ d2.worm_id = rdZero.worm_id) :=
  ⟨⟨rfl, by decide, by decide⟩,
    rain_drop_zero_body_self_heals rdZero 1 20 1000 [] rfl (by decide) (by decide)⟩

/-- C9 counterexample: at the claim's minimal screen size 1×1, the
self-healing `reset` draws `gen_range(10..=0)` — an empty range — and the
`rand` crate panics, so `update` *does* raise an error there. -/
theorem rain_drop_zero_body_panics_at_1x1 :
    rdZero.update 1 1 1000 [] = none := by decide

theorem sortDrops_idem (l : List Rain.RainDrop) :
    sortDrops (sortDrops l) = sortDrops l :=
  List.Sorted.insertionSort_eq (List.sorted_insertionSort dropLE l)

theorem digital_rain_second_diff_empty_aux (s : DigitalRain) :
    (DigitalRain.get_diff (DigitalRain.get_diff s).2).1 = [] := by
  simp only [DigitalRain.get_diff, DigitalRain.fill_buffer]
  rw [sortDrops_idem]
  exact Buffer.diff_self _

theorem blank_second_diff_empty_aux (s : Blank) :
    (Blank.get_diff (Blank.get_diff s).2).1 = [] := by
  simp only [Blank.get_diff]
  exact Buffer.diff_self _

theorem Buffer.set_width (b : Buffer) (x y : Nat) (c : Cell) :
    (b.set x y c).width = b.width := rfl

theorem Buffer.set_height (b : Buffer) (x y : Nat) (c : Cell) :
    (b.set x y c).height = b.height := rfl

theorem foldl_buffer_dims {α : Type} (f : Buffer → α → Buffer)
    (hf : ∀ b a, (f b a).width = b.width ∧ (f b a).height = b.height) :
    ∀ (l : List α) (b : Buffer),
      (l.foldl f b).width = b.width ∧ (l.foldl f b).height = b.height := by
  intro l
  induction l with
  | nil => intro b; exact ⟨rfl, rfl⟩
  | cons a l ih =>
      intro b
      rw [List.foldl_cons]
      refine ⟨?_, ?_⟩
      · rw [(ih (f b a)).1, (hf b a).1]
      · rw [(ih (f b a)).2, (hf b a).2]

theorem drawDrop_dims (g : List (List GradColor)) (b : Buffer) (d : Rain.RainDrop) :
    (drawDrop g b d).width = b.width ∧ (drawDrop g b d).height = b.height := by
  unfold drawDrop
  apply foldl_buffer_dims
  intro b p
  rcases p with ⟨i, x, y, ch⟩
  dsimp only
  split
  · exact ⟨rfl, rfl⟩
  · exact ⟨rfl, rfl⟩

theorem fill_buffer_dims (drops : List Rain.RainDrop) (b : Buffer)
    (g : List (List GradColor)) :
    (DigitalRain.fill_buffer drops b g).2.width = b.width ∧
    (DigitalRain.fill_buffer drops b g).2.height = b.height := by
  unfold DigitalRain.fill_buffer
  exact foldl_buffer_dims (drawDrop g) (fun b d => drawDrop_dims g b d) _ b

theorem digital_rain_new_spec (opts : DigitalRainOptions) (size : Nat × Nat)
    (rng : List Nat) (s : DigitalRain) (hnew : DigitalRain.new opts size rng = some s) :
    (DigitalRain.get_diff s).1 = [] ∧
      s.buffer.width = size.1 ∧ s.buffer.height = size.2 ∧ s.screen_size = size := by
  unfold DigitalRain.new at hnew
  cases hfold : (List.range opts.get_min_drops_number).foldlM
      (fun (acc : List Rain.RainDrop × List Nat) i => do
        let (d, r) ← Rain.RainDrop.new size.1 size.2 (i + 1) acc.2
        pure (acc.1 ++ [d], r))
      (([] : List Rain.RainDrop), rng) with
  | none => rw [hfold] at hnew; simp at hnew
  | some a =>
      rw [hfold, Option.bind_eq_bind, Option.some_bind] at hnew
      simp only [Option.pure_def, Option.some.injEq] at hnew
      subst hnew
      refine ⟨?_, ?_, ?_, rfl⟩
      · simp only [DigitalRain.get_diff, DigitalRain.fill_buffer]
        rw [sortDrops_idem]
        exact Buffer.diff_self _
      · exact (fill_buffer_dims a.1 (Buffer.new size.1 size.2) _).1
      · exact (fill_buffer_dims a.1 (Buffer.new size.1 size.2) _).2

/-- C2 amended: calling `get_diff` twice consecutively with no `update`
in between yields an empty second diff for `DigitalRain` and `Blank`
(whose `get_diff` re-renders the unchanged simulation state); `Maze`
violates the claim — its `get_diff` itself mutates the stored walls
(three random sparkle cells per call), so the second diff is in general
non-empty (see the counterexample). -/
theorem second_get_diff_empty :
    (∀ s : DigitalRain, (DigitalRain.get_diff (DigitalRain.get_diff s).2).1 = []) ∧
    (∀ s : Blank, (Blank.get_diff (Blank.get_diff s).2).1 = []) :=
  ⟨digital_rain_second_diff_empty_aux, blank_second_diff_empty_aux⟩

/-- C2 counterexample: a concrete 2×2 `Maze` (one reachable run) whose
second consecutive `get_diff` is non-empty — the sparkle step of the
first call changed three wall cells, and the second call's frame shows
them. -/
theorem maze_second_get_diff_not_empty :
    (Maze.get_diff (Maze.get_diff (Maze.new ⟨⟩ (2, 2) mazeRngC)).2).1 ≠ [] := by
  with_unfolding_all decide

/-- C3 amended: for a freshly constructed digital-rain effect (any
options, size and draws), the **first** `get_diff` returns the *empty*
diff — the constructor already pre-rendered the drops into the stored
buffer, as the source's own `no_diff` test asserts — in particular its
length is strictly smaller than 900; no relation is guaranteed between
the first and second diff lengths (see the counterexample). -/
theorem rain_first_diff_empty (opts : DigitalRainOptions) (size : Nat × Nat)
    (rng : List Nat) (s : DigitalRain)
    (hnew : DigitalRain.new opts size rng = some s) :
    (DigitalRain.get_diff s).1 = [] ∧ (DigitalRain.get_diff s).1.length < 900 := by
  obtain ⟨h1, _, _, _⟩ := digital_rain_new_spec opts size rng s hnew
  exact ⟨h1, by rw [h1]; norm_num⟩

theorem rain_first_diff_empty_witness :
    DigitalRain.new drOpts0 (2, 2) [] = some dr0 ∧
      ((DigitalRain.get_diff dr0).1 = [] ∧ (DigitalRain.get_diff dr0).1.length < 900) :=
  ⟨rfl, rain_first_diff_empty drOpts0 (2, 2) [] dr0 rfl⟩

set_option maxRecDepth 8000 in
/-- C3 counterexample: a concrete 30×30 digital-rain instance with the
claimed fixed drop count of 20 whose first `get_diff` is empty (the claim
says non-empty) and whose second diff, after one `update`, has the same
length as the first (the claim says it differs). -/
theorem rain_e2e_counterexample :
    rainScenario = some (0, 0) ∧
      rainScenario.map (fun p => decide (p.1 ≠ 0 ∧ p.1 < 900 ∧ p.2 ≠ p.1)) =
        some false := by
  have h : rainScenario = some (0, 0) := by with_unfolding_all decide
  exact ⟨h, by rw [h]; rfl⟩

/-- C7 counterexample: for a 1×1 `Blank` effect, the `get_diff` right
after `reset` returns 0 entries, while the freshly constructed state has
1 non-default cell — the claimed "full repaint of all non-default cells of
the fresh state" does not happen, because the constructor pre-renders the
buffer that reset installs as the remembered previous frame. -/
theorem blank_reset_no_full_repaint :
    (Blank.get_diff (Blank.reset (Blank.new ⟨⟩ (1, 1)))).1.length = 0 ∧
      nonDefaultCount (Blank.reset (Blank.new ⟨⟩ (1, 1))).buffer = 1 ∧
      (0 : Nat) ≠ 1 := by
  refine ⟨?_, ?_, by decide⟩ <;> decide

theorem getD_set_self (l : List Cell) (i : Nat) (c : Cell) (h : i < l.length) :
    (l.set i c).getD i Cell.default = c := by
  rw [List.getD_eq_getElem?_getD, List.getElem?_set_self (by omega)]
  rfl

theorem getD_set_ne (l : List Cell) (i j : Nat) (c : Cell) (h : i ≠ j) :
    (l.set i c).getD j Cell.default = l.getD j Cell.default := by
  rw [List.getD_eq_getElem?_getD, List.getElem?_set_ne h, ← List.getD_eq_getElem?_getD]

theorem Buffer.set_length (b : Buffer) (x y : Nat) (c : Cell) :
    (b.set x y c).buffer.length = b.buffer.length :=
  List.length_set ..

theorem wallStep_shape (y : Nat) (st : Buffer × List Nat) (x : Nat) :
    ∃ ch co, (wallStep y st x).1 = st.1.set x y (Cell.new ch co Attr.Bold) :=
  ⟨_, _, rfl⟩

theorem wallRow_go_spec (y : Nat) (xs : List Nat) :
    ∀ (b : Buffer) (rng : List Nat), (∀ x ∈ xs, x < b.width) →
      (xs.foldl (wallStep y) (b, rng)).1.width = b.width ∧
      (xs.foldl (wallStep y) (b, rng)).1.height = b.height ∧
      (xs.foldl (wallStep y) (b, rng)).1.buffer.length = b.buffer.length ∧
      ∀ j : Nat, j < b.buffer.length →
        ((∃ x ∈ xs, j = y * b.width + x) →
          ((xs.foldl (wallStep y) (b, rng)).1.buffer.getD j Cell.default).attr =
            Attr.Bold) ∧
        ((∀ x ∈ xs, j ≠ y * b.width + x) →
          (xs.foldl (wallStep y) (b, rng)).1.buffer.getD j Cell.default =
            b.buffer.getD j Cell.default) := by
  induction xs with
  | nil =>
      intro b rng _
      exact ⟨rfl, rfl, rfl, fun j _ =>
        ⟨fun ⟨x, hx, _⟩ => absurd hx (List.not_mem_nil x), fun _ => rfl⟩⟩
  | cons x0 xs ih =>
      intro b rng hxs
      obtain ⟨ch, co, hstep⟩ := wallStep_shape y (b, rng) x0
      have hx0w : x0 < b.width := hxs x0 (List.mem_cons_self x0 xs)
      -- the state after the first write
      set st1 := wallStep y (b, rng) x0 with hst1
      have hfold : (x0 :: xs).foldl (wallStep y) (b, rng) =
          xs.foldl (wallStep y) (st1.1, st1.2) := by
        rw [List.foldl_cons]
      have hw1 : st1.1.width = b.width := by rw [hstep]; rfl
      have hh1 : st1.1.height = b.height := by rw [hstep]; rfl
      have hl1 : st1.1.buffer.length = b.buffer.length := by
        rw [hstep]; exact Buffer.set_length ..
      have ihx : ∀ x ∈ xs, x < st1.1.width := by
        rw [hw1]; exact fun x hx => hxs x (List.mem_cons_of_mem x0 hx)
      obtain ⟨ihw, ihh, ihl, ihj⟩ := ih st1.1 st1.2 ihx
      rw [hfold]
      refine ⟨by rw [ihw, hw1], by rw [ihh, hh1], by rw [ihl, hl1], ?_⟩
      intro j hj
      have hj1 : j < st1.1.buffer.length := by rw [hl1]; exact hj
      have hidx : b.index_of x0 y = y * b.width + x0 := rfl
      constructor
      · rintro ⟨x, hxmem, hjx⟩
        by_cases hmem : ∃ x ∈ xs, j = y * b.width + x
        · obtain ⟨x', hx', hjx'⟩ := hmem
          exact (ihj j hj1).1 ⟨x', hx', by rw [hw1]; exact hjx'⟩
        · -- the index is x0's write, untouched by the rest of the row
          push_neg at hmem
          have hx0 : j = y * b.width + x0 := by
            rcases List.mem_cons.mp hxmem with h | h
            · rw [h] at hjx; exact hjx
            · exact absurd hjx (hmem x h)
          have huntouched := (ihj j hj1).2 (by
            intro x hx
            rw [hw1]
            exact hmem x hx)
          rw [huntouched, hstep]
          show ((b.buffer.set (b.index_of x0 y) (Cell.new ch co Attr.Bold)).getD j
            Cell.default).attr = Attr.Bold
          rw [hidx, ← hx0]
          rw [getD_set_self b.buffer j (Cell.new ch co Attr.Bold) hj]
          rfl
      · intro hnone
        have h1 := (ihj j hj1).2 (by
          intro x hx
          rw [hw1]
          exact hnone x (List.mem_cons_of_mem x0 hx))
        rw [h1, hstep]
        show (b.buffer.set (b.index_of x0 y) (Cell.new ch co Attr.Bold)).getD j
            Cell.default = b.buffer.getD j Cell.default
        rw [hidx]
        exact getD_set_ne b.buffer _ j _
          (fun hcon => hnone x0 (List.mem_cons_self x0 xs) (by rw [hcon]))

theorem wallRows_spec (ys : List Nat) :
    ∀ (b : Buffer) (rng : List Nat), 0 < b.width →
      (ys.foldl (wallRow b.width) (b, rng)).1.width = b.width ∧
      (ys.foldl (wallRow b.width) (b, rng)).1.height = b.height ∧
      (ys.foldl (wallRow b.width) (b, rng)).1.buffer.length = b.buffer.length ∧
      ∀ j : Nat, j < b.buffer.length →
        ((j / b.width ∈ ys) →
          ((ys.foldl (wallRow b.width) (b, rng)).1.buffer.getD j Cell.default).attr =
            Attr.Bold) ∧
        ((j / b.width ∉ ys) →
          (ys.foldl (wallRow b.width) (b, rng)).1.buffer.getD j Cell.default =
            b.buffer.getD j Cell.default) := by
  induction ys with
  | nil =>
      intro b rng _
      exact ⟨rfl, rfl, rfl, fun j _ =>
        ⟨fun hx => absurd hx (List.not_mem_nil _), fun _ => rfl⟩⟩
  | cons y0 ys ih =>
      intro b rng hbw
      set st1 := wallRow b.width (b, rng) y0 with hst1
      have hrow := wallRow_go_spec y0 (List.range b.width) b rng
        (fun x hx => List.mem_range.mp hx)
      rw [← wallRow] at hrow
      obtain ⟨hw1, hh1, hl1, hjrow⟩ := hrow
      have hfold : (y0 :: ys).foldl (wallRow b.width) (b, rng) =
          ys.foldl (wallRow b.width) (st1.1, st1.2) := by
        rw [List.foldl_cons]
      have hbw1 : 0 < st1.1.width := by rw [hw1]; exact hbw
      obtain ⟨ihw, ihh, ihl, ihj⟩ := ih st1.1 st1.2 hbw1
      rw [hfold]
      -- the inner `wallRow st1.1.width` vs `wallRow b.width` coincide
      rw [hw1] at ihw ihh ihl ihj
      refine ⟨by rw [ihw], by rw [ihh, hh1], by rw [ihl, hl1], ?_⟩
      intro j hj
      have hj1 : j < st1.1.buffer.length := by rw [hl1]; exact hj
      constructor
      · intro hmem
        by_cases hys : j / b.width ∈ ys
        · exact (ihj j hj1).1 hys
        · have hy0 : j / b.width = y0 := by
            rcases List.mem_cons.mp hmem with h | h
            · exact h
            · exact absurd h hys
          have huntouched := (ihj j hj1).2 hys
          rw [huntouched]
          refine (hjrow j hj).1 ⟨j % b.width, List.mem_range.mpr (Nat.mod_lt j hbw), ?_⟩
          rw [← hy0]
          rw [Nat.mul_comm]
          exact (Nat.div_add_mod j b.width).symm
      · intro hmem
        have hy0 : j / b.width ≠ y0 := fun hcon => hmem (by rw [hcon]; exact List.mem_cons_self y0 ys)
        have hys : j / b.width ∉ ys := fun hcon => hmem (List.mem_cons_of_mem y0 hcon)
        rw [(ihj j hj1).2 hys]
        refine (hjrow j hj).2 ?_
        intro x hx hcon
        apply hy0
        rw [hcon]
        have hxw : x < b.width := List.mem_range.mp hx
        rw [Nat.mul_comm, Nat.mul_add_div hbw, Nat.div_eq_of_lt hxw, Nat.add_zero]

theorem fill_initial_walls_spec (b : Buffer) (rng : List Nat) (hbw : 0 < b.width) :
    (fill_initial_walls b rng).1.width = b.width ∧
    (fill_initial_walls b rng).1.height = b.height ∧
    (fill_initial_walls b rng).1.buffer.length = b.buffer.length ∧
    (b.buffer.length = b.width * b.height →
      ∀ j : Nat, j < b.buffer.length →
        ((fill_initial_walls b rng).1.buffer.getD j Cell.default).attr = Attr.Bold) := by
  unfold fill_initial_walls
  obtain ⟨hw, hh, hl, hj⟩ := wallRows_spec (List.range b.height) b rng hbw
  refine ⟨hw, hh, hl, fun hlen j hjlen => ?_⟩
  refine (hj j hjlen).1 (List.mem_range.mpr ?_)
  exact Nat.div_lt_of_lt_mul (by rw [← hlen]; exact hjlen)

theorem overlay_preserves (ps : List (Nat × Nat)) :
    ∀ b : Buffer,
      (ps.foldl (fun buf p => buf.set p.1 p.2 (Cell.new '█' Color.White Attr.Reset))
          b).buffer.length = b.buffer.length ∧
      ((∀ j : Nat, j < b.buffer.length →
          (b.buffer.getD j Cell.default).attr = Attr.Bold ∨
            (b.buffer.getD j Cell.default).symbol = '█') →
        ∀ j : Nat, j < b.buffer.length →
          ((ps.foldl (fun buf p => buf.set p.1 p.2 (Cell.new '█' Color.White Attr.Reset))
              b).buffer.getD j Cell.default).attr = Attr.Bold ∨
          ((ps.foldl (fun buf p => buf.set p.1 p.2 (Cell.new '█' Color.White Attr.Reset))
              b).buffer.getD j Cell.default).symbol = '█') := by
  induction ps with
  | nil => intro b; exact ⟨rfl, fun hP => hP⟩
  | cons p ps ih =>
      intro b
      set b1 := b.set p.1 p.2 (Cell.new '█' Color.White Attr.Reset) with hb1
      have hl1 : b1.buffer.length = b.buffer.length := Buffer.set_length ..
      obtain ⟨ihl, ihP⟩ := ih b1
      constructor
      · rw [List.foldl_cons, ihl, hl1]
      · intro hP j hj
        rw [List.foldl_cons]
        refine ihP ?_ j (by rw [hl1]; exact hj)
        intro k hk
        have hkb : k < b.buffer.length := by rw [← hl1]; exact hk
        by_cases hidx : b.index_of p.1 p.2 = k
        · right
          show (b1.buffer.getD k Cell.default).symbol = '█'
          rw [hb1]
          show ((b.buffer.set (b.index_of p.1 p.2) (Cell.new '█' Color.White Attr.Reset)).getD
            k Cell.default).symbol = '█'
          rw [hidx, getD_set_self b.buffer k _ hkb]
          rfl
        · have : b1.buffer.getD k Cell.default = b.buffer.getD k Cell.default := by
            rw [hb1]
            exact getD_set_ne b.buffer _ k _ hidx
          rw [this]
          exact hP k hkb

theorem maze_update_preserves (s : Maze) (hc : s.maze_complete = false)
    (x y : Int) (rest : List (Int × Int)) (hs : s.stack = (x, y) :: rest) :
    (Maze.update s).buffer = s.buffer ∧
    (Maze.update s).initial_walls = s.initial_walls ∧
    (Maze.update s).maze_complete = false := by
  unfold Maze.update
  rw [hc, hs]
  simp only [Bool.false_eq_true, if_false]
  split
  · exact ⟨rfl, rfl, rfl⟩
  · exact ⟨rfl, rfl, rfl⟩

theorem replicate_getD (n k : Nat) (hk : k < n) :
    (List.replicate n Cell.default).getD k Cell.default = Cell.default := by
  rw [List.getD_eq_getElem?_getD, List.getElem?_replicate]
  simp [hk]

/-- C4: for a 5×5 `Maze` immediately after construction (any draw
stream), one `update()` followed by `get_diff()` returns a diff of
exactly 25 entries: the previously blank buffer is compared against the
walls-filled (and path-overlaid) frame, every cell of which is
non-default. -/
theorem maze_update_get_diff_25 (rng : List Nat) :
    ((Maze.get_diff (Maze.update (Maze.new ⟨⟩ (5, 5) rng))).1).length = 25 := by
  set s0 := Maze.new ⟨⟩ (5, 5) rng with hs0
  have hbuf : s0.buffer = Buffer.new 5 5 := rfl
  have hcomplete : s0.maze_complete = false := rfl
  have hstack : ∃ x y rest, s0.stack = (x, y) :: rest := ⟨_, _, _, rfl⟩
  have hwalls : ∃ r, s0.initial_walls = (fill_initial_walls (Buffer.new 5 5) r).1 :=
    ⟨_, rfl⟩
  obtain ⟨x, y, rest, hstk⟩ := hstack
  obtain ⟨r2, hwalls⟩ := hwalls
  obtain ⟨hb1, hw1, hc1⟩ := maze_update_preserves s0 hcomplete x y rest hstk
  unfold Maze.get_diff
  rw [hc1]
  simp only [Bool.false_eq_true, if_false]
  rw [hb1, hw1, hbuf, hwalls]
  -- facts about the freshly filled walls
  have hb5 : (Buffer.new 5 5).buffer.length = 25 := by decide
  have hb5w : (0 : Nat) < (Buffer.new 5 5).width := by decide
  have hb5len : (Buffer.new 5 5).buffer.length = (Buffer.new 5 5).width * (Buffer.new 5 5).height := by decide
  obtain ⟨hww, hwh, hwl, hwbold⟩ := fill_initial_walls_spec (Buffer.new 5 5) r2 hb5w
  set walls := (fill_initial_walls (Buffer.new 5 5) r2).1 with hwdef
  have hwl25 : walls.buffer.length = 25 := by rw [hwl, hb5]
  -- the path overlay keeps every cell bold-or-block
  obtain ⟨hol, hoP⟩ := overlay_preserves (Maze.update s0).paths walls
  set curr := (Maze.update s0).paths.foldl
    (fun buf p => buf.set p.1 p.2 (Cell.new '█' Color.White Attr.Reset)) walls with hcurr
  have hcl : curr.buffer.length = 25 := by rw [hol, hwl25]
  have hcP : ∀ j : Nat, j < walls.buffer.length →
      (curr.buffer.getD j Cell.default).attr = Attr.Bold ∨
      (curr.buffer.getD j Cell.default).symbol = '█' := by
    refine hoP ?_
    intro j hj
    exact Or.inl (hwbold hb5len j (by rw [← hwl]; exact hj))
  -- every current cell differs from the blank previous buffer
  unfold Buffer.diff
  have hmin : min curr.buffer.length (Buffer.new 5 5).buffer.length = 25 := by
    rw [hcl, hb5]; decide
  rw [diffGo_length_eq _ _ _ _ ?_, hmin]
  intro k hk
  rw [hmin] at hk
  have hblank : (Buffer.new 5 5).buffer.getD k Cell.default = Cell.default :=
    replicate_getD 25 k (by omega)
  rw [hblank]
  rcases hcP k (by omega) with hbold | hblock
  · intro hcon
    rw [hcon] at hbold
    exact absurd hbold (by decide)
  · intro hcon
    rw [hcon] at hblock
    exact absurd hblock (by decide)

theorem maze_reset_full_repaint (s : Maze) (hw : 0 < s.screen_size.1) :
    (Maze.get_diff (Maze.reset s)).1.length = s.screen_size.1 * s.screen_size.2 := by
  have hc : (Maze.reset s).maze_complete = false := rfl
  have hpaths : (Maze.reset s).paths = [] := rfl
  have hbuf : (Maze.reset s).buffer = Buffer.new s.screen_size.1 s.screen_size.2 := rfl
  have hwalls : ∃ ra rb, (Maze.reset s).initial_walls =
      (fill_initial_walls
        ((fill_initial_walls (Buffer.new s.screen_size.1 s.screen_size.2) ra).1) rb).1 :=
    ⟨_, _, rfl⟩
  obtain ⟨ra, rb, hwalls⟩ := hwalls
  unfold Maze.get_diff
  rw [hc]
  simp only [Bool.false_eq_true, if_false]
  rw [hpaths]
  simp only [List.foldl_nil]
  rw [hbuf, hwalls]
  have hb0w : 0 < (Buffer.new s.screen_size.1 s.screen_size.2).width := hw
  have hb0len : (Buffer.new s.screen_size.1 s.screen_size.2).buffer.length =
      s.screen_size.1 * s.screen_size.2 := List.length_replicate ..
  obtain ⟨hWw, hWh, hWl, _⟩ :=
    fill_initial_walls_spec (Buffer.new s.screen_size.1 s.screen_size.2) ra hb0w
  set W := (fill_initial_walls (Buffer.new s.screen_size.1 s.screen_size.2) ra).1
    with hWdef
  have hWw' : 0 < W.width := by rw [hWw]; exact hb0w
  have hWlen : W.buffer.length = W.width * W.height := by
    rw [hWl, hWw, hWh]
    exact List.length_replicate ..
  obtain ⟨hW2w, hW2h, hW2l, hW2bold⟩ := fill_initial_walls_spec W rb hWw'
  have hlen2 : (fill_initial_walls W rb).1.buffer.length =
      s.screen_size.1 * s.screen_size.2 := by
    rw [hW2l, hWl]
    exact hb0len
  have hminL : min ((fill_initial_walls W rb).1.buffer.length)
      ((Buffer.new s.screen_size.1 s.screen_size.2).buffer.length) =
      s.screen_size.1 * s.screen_size.2 := by
    rw [hlen2, hb0len, min_self]
  unfold Buffer.diff
  rw [diffGo_length_eq _ _ _ _ ?_, hminL]
  intro k hk
  rw [hminL] at hk
  have hblankk : (Buffer.new s.screen_size.1 s.screen_size.2).buffer.getD k
      Cell.default = Cell.default :=
    replicate_getD (s.screen_size.1 * s.screen_size.2) k hk
  rw [hblankk]
  have hkW : k < W.buffer.length := by rw [hWl]; rw [hb0len]; exact hk
  have hbold := hW2bold hWlen k hkW
  intro hcon
  rw [hcon] at hbold
  exact absurd hbold (by decide)

/-- C7 amended: `reset` rebuilds the effect from scratch at the currently
stored screen size and original options — for `Blank` and `DigitalRain`
literally `*self = Self::new(options, size)`, for `Maze` the same
reconstruction with the walls refilled and a fresh start pushed (blank
previous buffer, empty paths, single-entry stack, not complete) — and the
rebuilt buffer's dimensions always equal the stored screen size.  The
claimed "previous buffer blank ⇒ next `get_diff` is a full repaint" holds
only for `Maze` (the next diff covers all `width * height` cells, every
cell of the fresh frame being non-default); `Blank` and `DigitalRain`
pre-render in the constructor, so their remembered previous buffer is the
fresh instance's rendered frame and the next `get_diff` is empty. -/
theorem reset_rebuilds_fresh :
    (∀ s : Blank,
      Blank.reset s = Blank.new s.options s.screen_size ∧
      (Blank.reset s).buffer.width = s.screen_size.1 ∧
      (Blank.reset s).buffer.height = s.screen_size.2 ∧
      (Blank.get_diff (Blank.reset s)).1 = []) ∧
    (∀ s : DigitalRain,
      DigitalRain.reset s = DigitalRain.new s.options s.screen_size s.rng) ∧
    (∀ (s s2 : DigitalRain), DigitalRain.reset s = some s2 →
      s2.buffer.width = s.screen_size.1 ∧ s2.buffer.height = s.screen_size.2 ∧
      (DigitalRain.get_diff s2).1 = []) ∧
    (∀ s : Maze,
      (Maze.reset s).buffer = Buffer.new s.screen_size.1 s.screen_size.2 ∧
      (Maze.reset s).buffer.width = s.screen_size.1 ∧
      (Maze.reset s).buffer.height = s.screen_size.2 ∧
      (Maze.reset s).paths = [] ∧
      (Maze.reset s).maze_complete = false ∧
      (∃ start, (Maze.reset s).stack = [start]) ∧
      (Maze.reset s).screen_size = s.screen_size ∧
      (0 < s.screen_size.1 →
        (Maze.get_diff (Maze.reset s)).1.length =
          s.screen_size.1 * s.screen_size.2)) := by
  refine ⟨fun s => ⟨rfl, rfl, rfl, ?_⟩, fun s => rfl, fun s s2 h => ?_,
    fun s => ⟨rfl, rfl, rfl, rfl, rfl, ⟨_, rfl⟩, rfl, maze_reset_full_repaint s⟩⟩
  · simp only [Blank.reset, Blank.get_diff, Blank.new]
    exact Buffer.diff_self _
  · obtain ⟨h1, h2, h3, _⟩ := digital_rain_new_spec s.options s.screen_size s.rng s2 h
    exact ⟨h2, h3, h1⟩

theorem reset_rebuilds_fresh_witness :
    (DigitalRain.reset drDummy = some dr0 ∧
      (dr0.buffer.width = drDummy.screen_size.1 ∧
        dr0.buffer.height = drDummy.screen_size.2 ∧
        (DigitalRain.get_diff dr0).1 = [])) ∧
    (0 < (Maze.new ⟨⟩ (2, 2) []).screen_size.1 ∧
      (Maze.get_diff (Maze.reset (Maze.new ⟨⟩ (2, 2) []))).1.length =
        (Maze.new ⟨⟩ (2, 2) []).screen_size.1 *
          (Maze.new ⟨⟩ (2, 2) []).screen_size.2) :=
  ⟨⟨rfl, reset_rebuilds_fresh.2.2.1 drDummy dr0 rfl⟩,
    ⟨by decide,
      (reset_rebuilds_fresh.2.2.2 (Maze.new ⟨⟩ (2, 2) [])).2.2.2.2.2.2.2 (by decide)⟩⟩
